import Mathlib

/-!
Verification of the `Inquisitor` classification engine.

Shallow embedding of `src/service/Inquisitor.ts` (v2.3.3): the glob
pattern matcher, the criteria compiler (`set_criteria`), the bounded
clean-item cache (`trustworthy_list`), the chunked classification
process (`do_process` / `process_interval_cb`) and the decommission
lifecycle, together with theorems settling the specification claims.

JavaScript `Set<string>` is modelled as a duplicate-free `List String`
in insertion order; `setInterval`-driven execution is modelled as a
step function on an explicit engine state, with one application of the
step per timer tick.  Promise settlements are recorded in an
append-only log of `(promise id, outcome)` pairs.
-/

namespace Inquisitor

/-- A JavaScript value as far as the criteria validation code observes
it: a string, `null`, `undefined` (also: an absent field), or any
other value of which only truthiness matters. -/
inductive JVal where
  | vstr (s : String)
  | vnull
  | vundef
  | vother (truthy : Bool)
deriving DecidableEq

/-- JavaScript truthiness of a `JVal`. -/
def JVal.truthy : JVal → Bool
  | .vstr s => s ≠ ""
  | .vnull => false
  | .vundef => false
  | .vother t => t

/-- `typeof v === 'string'`. -/
def JVal.isString : JVal → Bool
  | .vstr _ => true
  | _ => false

/-- The nullish-coalescing `v ?? p` where `p` is a string. -/
def JVal.coalesce : JVal → String → JVal
  | .vnull, p => .vstr p
  | .vundef, p => .vstr p
  | v, _ => v

/-- `GLib.PatternSpec` glob semantics: `*` matches any run of
characters, `?` matches exactly one character, anything else matches
itself.  Operates on the pattern and the text as character lists. -/
def globMatch : List Char → List Char → Bool
  | [], [] => true
  | [], _ :: _ => false
  | '*' :: ps, [] => globMatch ps []
  | '*' :: ps, c :: ts => globMatch ps (c :: ts) || globMatch ('*' :: ps) ts
  | '?' :: _, [] => false
  | '?' :: ps, _ :: ts => globMatch ps ts
  | _ :: _, [] => false
  | p :: ps, c :: ts => (p == c) && globMatch ps ts
termination_by p t => p.length + t.length

/-- One compiled criterion (`CompiledCriteriaSpec<'glob'>`): the `type`
tag, the compiled pattern (we retain the pattern text; matching is
`globMatch`), and the label (`criterion.label ?? criterion.pattern`,
which at runtime need not be a string). -/
structure CompiledCriterion where
  ctype : String
  pattern_spec : String
  label : JVal
deriving DecidableEq

/-- A raw element of the `criteria` array as the runtime validation
sees it: either not a (non-null) object at all, or an object with
`type`, `pattern` and `label` fields. -/
inductive RawCriterion where
  | atom (truthy : Bool)
  | obj (ctype : JVal) (pattern : JVal) (label : JVal)
deriving DecidableEq

/-- Validation and compilation of one criterion — the body of the
criterion-validation section of the `set_criteria` tick:
object check, then label check (only when the label is truthy), then
the `switch` on the criterion type. -/
def compile_criterion : RawCriterion → Except String CompiledCriterion
  | .atom _ => .error "Criterion must be non null object"
  | .obj ctype pattern label =>
    if label.truthy && !label.isString then
      .error "Invalid label: Label must be a string"
    else
      match ctype with
      | .vstr "glob" =>
        match pattern with
        | .vstr p =>
          if p.length > 0 then
            .ok ⟨"glob", p, label.coalesce p⟩
          else
            .error "Invalid glob pattern: Glob pattern must be a non-empty string"
        | _ => .error "Invalid glob pattern: Glob pattern must be a non-empty string"
      | _ => .error "Unsupported criteria type"

/-- Left-to-right compilation of a criteria list, stopping at the
first validation error — the accumulated effect of the per-tick
validation loop on the temporary array. -/
def compile_list : List RawCriterion → Except String (List CompiledCriterion)
  | [] => .ok []
  | c :: rest =>
    match compile_criterion c with
    | .error e => .error e
    | .ok cc =>
      match compile_list rest with
      | .error e => .error e
      | .ok l => .ok (cc :: l)

/-! ## The bounded clean-item cache -/

/-- The `trustworthy_list` cache: a JS `Set<string>`, modelled as its
insertion-ordered key list. -/
abbrev Cache := List String

def MAX_CACHE_SIZE : Nat := 1000

/-- `Set.prototype.has`. -/
def setHas (c : Cache) (k : String) : Bool := k ∈ c

/-- `Set.prototype.add`: appending in insertion order, a no-op when
the key is already present. -/
def setAdd (c : Cache) (k : String) : Cache := if k ∈ c then c else c ++ [k]

/-- `Set.prototype.delete` (a JS set holds no duplicates, so deleting
the first occurrence is exact). -/
def setDelete (c : Cache) (k : String) : Cache := c.erase k

/-- `Inquisitor.add_to_trustworthy_list`: if the cache has reached
`MAX_CACHE_SIZE`, fetch the oldest key (`values().next().value`) and,
*if it is truthy*, delete it; then add the new key. -/
def add_to_trustworthy_list (c : Cache) (uri : String) : Cache :=
  let c1 :=
    if MAX_CACHE_SIZE ≤ c.length then
      match c.head? with
      | some oldest => if oldest ≠ "" then setDelete c oldest else c
      | none => c
    else c
  setAdd c1 uri

/-! ## Per-item classification (`check_criteria` and the loop body of
`process_interval_cb`) -/

/-- `SinInfo` from `common-types`: one `[type, label]` verdict tuple
(labels at runtime need not be strings, cf. `CompiledCriterion`). -/
abbrev SinInfo := String × JVal

/-- The built-in lint verdict `['lint', 'MISSING-DISPLAY-URI']`. -/
def LINT_SIN : SinInfo := ("lint", .vstr "MISSING-DISPLAY-URI")

/-- `RecentItemTuple`: `[uri, uri_display]` with a possibly-`null`
display value. -/
abbrev RecentItemTuple := String × Option String

/-- `ReportItem`: `[uri, uri_display, sins]`. -/
abbrev ReportItem := String × String × List SinInfo

abbrev Report := List ReportItem

/-- `Inquisitor.get_sin`: one criterion's verdict for one display
value.  The only supported type is `glob`; the `default` branch of the
`switch` returns `undefined`. -/
def get_sin (criterion : CompiledCriterion) (uri_display : String) : Option SinInfo :=
  match criterion.ctype with
  | "glob" =>
    if globMatch criterion.pattern_spec.data uri_display.data then
      some (criterion.ctype, criterion.label)
    else
      none
  | _ => none

/-- `Inquisitor.check_criteria` as the list of sins the generator
yields: for a present, non-empty display value the matching criteria
in rule order; otherwise the single lint sin. -/
def check_criteria (rules : List CompiledCriterion) (uri_display : Option String) :
    List SinInfo :=
  match uri_display with
  | some d =>
    if d.length > 0 then rules.filterMap (fun c => get_sin c d) else [LINT_SIN]
  | none => [LINT_SIN]

/-- The display value as it is written into a report row:
`null` becomes `'<unknown>'`, the empty string `'<empty>'`. -/
def norm_display : Option String → String
  | none => "<unknown>"
  | some d => if d.length > 0 then d else "<empty>"

/-- The two check modes of `do_process`. -/
inductive ProcessMode where
  | LAZY
  | REPORT
deriving DecidableEq

def BATCH_SIZE : Nat := 25

def PROCESS_INTERVAL : Nat := 8

/-- The mutable data a classification pass works on: the clean-item
cache, the log of `'matched-result'` emissions, and the in-progress
report (`process_operation.report`, used in `REPORT` mode only). -/
structure ItemState where
  cache : Cache
  emitted : List (String × SinInfo)
  report : Report
deriving DecidableEq

/-- The body of the `for (const item_tuple of items_batch)` loop of
`process_interval_cb`: skip a cached key entirely; otherwise collect
sins from `check_criteria` — all of them in `REPORT` mode, only the
first in `LAZY` mode, which is also emitted as a `'matched-result'`
signal — and cache the key when no sin was found; in `REPORT` mode
append a report row for the item in every case. -/
def process_item (mode : ProcessMode) (rules : List CompiledCriterion)
    (st : ItemState) (item : RecentItemTuple) : ItemState :=
  let uri := item.1
  let uri_display := item.2
  let checked := !setHas st.cache uri
  let allSins := check_criteria rules uri_display
  let sins : List SinInfo :=
    if checked then (if mode = .LAZY then allSins.take 1 else allSins) else []
  let emitted :=
    if checked && mode = .LAZY then
      match allSins.head? with
      | some s => st.emitted ++ [(uri, s)]
      | none => st.emitted
    else st.emitted
  let cache :=
    if checked && sins.isEmpty then add_to_trustworthy_list st.cache uri else st.cache
  let report :=
    if mode = .REPORT then st.report ++ [(uri, norm_display uri_display, sins)]
    else st.report
  ⟨cache, emitted, report⟩

/-- One batch of the loop: `items_batch.forEach`. -/
def process_batch (mode : ProcessMode) (rules : List CompiledCriterion)
    (st : ItemState) (batch : List RecentItemTuple) : ItemState :=
  batch.foldl (process_item mode rules) st

/-- The accumulated effect of a classification pass over a whole item
list (the composition of all its batches). -/
def run_proc (mode : ProcessMode) (rules : List CompiledCriterion)
    (st : ItemState) (items : List RecentItemTuple) : ItemState :=
  items.foldl (process_item mode rules) st

/-! ## The engine state machine

State of one `Inquisitor` object plus the observation logs of its
environment.  Each pending `setInterval` callback becomes a tick
function (`crit_tick`, `proc_tick`); each public method becomes a
state transformer; settling a Promise appends to the `settled` log. -/

/-- How a Promise handed out by the engine settles. -/
inductive Outcome where
  | resolvedVoid
  | resolvedReport (r : Report)
  | rejectedValidate (msg : String)
  | rejectedCancelled (msg : String)
  | rejectedAbort (msg : String)
deriving DecidableEq

/-- Whether the Promise fulfilled (rather than rejected). -/
def Outcome.isResolved : Outcome → Bool
  | .resolvedVoid => true
  | .resolvedReport _ => true
  | _ => false

/-- `criteria_operation` while its interval source is live. -/
structure CritOp where
  pid : Nat
  specs : List RawCriterion
  temp : List CompiledCriterion
  idx : Nat
deriving DecidableEq

/-- `process_operation` while its interval source is live. -/
structure ProcOp where
  pid : Nat
  mode : ProcessMode
  items : List RecentItemTuple
deriving DecidableEq

/-- The state of one `Inquisitor` object: its fields, its two
operations (present exactly when the corresponding interval source is
non-null), the report accumulator, and the environment's logs of
signal emissions and Promise settlements.  `nextId` hands out fresh
Promise identities. -/
structure Inq where
  decommissioned : Bool
  eligibility_criteria : List CompiledCriterion
  trustworthy_list : Cache
  crit : Option CritOp
  proc : Option ProcOp
  report : Option Report
  emitted : List (String × SinInfo)
  settled : List (Nat × Outcome)
  nextId : Nat
deriving DecidableEq

/-- A freshly constructed `Inquisitor`. -/
def init : Inq :=
  ⟨false, [], [], none, none, none, [], [], 0⟩

/-- The error thrown by every public entry point after
`decommission()`. -/
structure DecommissionedError where
deriving DecidableEq

/-- Body of `process_abort`: when a check is running, clear its
interval and reject its Promise with `ProcessAbortError(msg)`;
report whether anything was aborted. -/
def process_abort_core (msg : String) (s : Inq) : Bool × Inq :=
  match s.proc with
  | some p =>
    (true, { s with proc := none, settled := s.settled ++ [(p.pid, .rejectedAbort msg)] })
  | none => (false, s)

/-- `Inquisitor.do_process`: abort any running check with
`'New process will be initiated'`, reset the report accumulator
according to the mode, and start a new process operation with a fresh
Promise. -/
def do_process (mode : ProcessMode) (items : List RecentItemTuple) (s : Inq) : Inq :=
  let s1 := (process_abort_core "New process will be initiated" s).2
  let s2 := { s1 with report := if mode = ProcessMode.REPORT then some [] else none }
  { s2 with
    proc := some ⟨s2.nextId, mode, items⟩,
    nextId := s2.nextId + 1 }

/-- The synchronous part of `Inquisitor.set_criteria` (the Promise
executor): supersede a running criteria operation, abort any running
check, reset the live criteria and clear the cache, and start the
validation interval at index 0 with an empty temporary list. -/
def set_criteria_core (s : Inq) (specs : List RawCriterion) : Inq :=
  let s1 :=
    match s.crit with
    | some c =>
      { s with
        crit := none,
        settled := s.settled ++ [(c.pid, .rejectedCancelled "Superseded by newer operation")] }
    | none => s
  let s2 := (process_abort_core "Stopping for criteria update" s1).2
  let s3 := { s2 with eligibility_criteria := [], trustworthy_list := [] }
  { s3 with
    crit := some ⟨s3.nextId, specs, [], 0⟩,
    nextId := s3.nextId + 1 }

/-- One tick of the `set_criteria` validation interval: either all
criteria are validated — publish the temporary list in a single
assignment and resolve — or validate and compile the criterion at the
current index, rejecting on a validation error. -/
def crit_tick (s : Inq) : Inq :=
  match s.crit with
  | none => s
  | some c =>
    if c.specs.length ≤ c.idx then
      { s with
        eligibility_criteria := c.temp,
        crit := none,
        settled := s.settled ++ [(c.pid, .resolvedVoid)] }
    else
      match c.specs[c.idx]? with
      | none => s
      | some criterion =>
        match compile_criterion criterion with
        | .ok cc =>
          { s with crit := some ⟨c.pid, c.specs, c.temp ++ [cc], c.idx + 1⟩ }
        | .error msg =>
          { s with
            crit := none,
            settled := s.settled ++ [(c.pid, .rejectedValidate msg)] }

/-- One tick of the check interval (`process_interval_cb`): splice a
batch off the item list (`BATCH_SIZE` items in `REPORT` mode, one in
`LAZY` mode), run the per-item loop, and when the list is exhausted
clear the interval and resolve — with the report in `REPORT` mode,
with no value in `LAZY` mode. -/
def proc_tick (s : Inq) : Inq :=
  match s.proc with
  | none => s
  | some p =>
    let n := if p.mode = ProcessMode.REPORT then BATCH_SIZE else 1
    let batch := p.items.take n
    let rest := p.items.drop n
    let st0 : ItemState := ⟨s.trustworthy_list, s.emitted, s.report.getD []⟩
    let st1 := process_batch p.mode s.eligibility_criteria st0 batch
    let s1 :=
      { s with
        trustworthy_list := st1.cache,
        emitted := st1.emitted,
        report := if p.mode = ProcessMode.REPORT then some st1.report else s.report }
    if rest.isEmpty then
      { s1 with
        proc := none,
        settled := s1.settled ++
          [(p.pid, if p.mode = ProcessMode.REPORT then Outcome.resolvedReport st1.report else Outcome.resolvedVoid)] }
    else
      { s1 with proc := some ⟨p.pid, p.mode, rest⟩ }

/-! Public methods.  After `decommission()` the method slots hold a
function that throws `DecommissionedError` (and the `criteria` getter
throws on reading the `undefined` field), modelled as `Except`. -/

def set_criteria (s : Inq) (specs : List RawCriterion) : Except DecommissionedError Inq :=
  if s.decommissioned then .error ⟨⟩ else .ok (set_criteria_core s specs)

def inspect_to_report (s : Inq) (items : List RecentItemTuple) :
    Except DecommissionedError Inq :=
  if s.decommissioned then .error ⟨⟩ else .ok (do_process .REPORT items s)

def inspect_to_signals (s : Inq) (items : List RecentItemTuple) :
    Except DecommissionedError Inq :=
  if s.decommissioned then .error ⟨⟩ else .ok (do_process .LAZY items s)

def process_abort (s : Inq) (msg : String) : Except DecommissionedError (Bool × Inq) :=
  if s.decommissioned then .error ⟨⟩ else .ok (process_abort_core msg s)

def criteria_get (s : Inq) : Except DecommissionedError (List CompiledCriterion) :=
  if s.decommissioned then .error ⟨⟩ else .ok s.eligibility_criteria

/-- `Inquisitor.decommission`: abort any running check, cancel any
running criteria operation, clear the object's data and break every
public method. -/
def decommission (s : Inq) : Inq :=
  let s1 := (process_abort_core "Object is being decommissioned" s).2
  let s2 :=
    match s1.crit with
    | some c =>
      { s1 with
        crit := none,
        settled := s1.settled ++ [(c.pid, Outcome.rejectedCancelled "Object is being decommissioned")] }
    | none => s1
  { s2 with
    decommissioned := true,
    eligibility_criteria := [],
    trustworthy_list := [] }

/-! ## Event traces

Between the ticks of a pending operation the GJS main loop can run
other sources: further ticks, and caller code invoking public methods.
A trace of such happenings is a list of events. -/

/-- One scheduling step while a `set_criteria` call is pending: a tick
of either interval, or a caller starting a check or aborting one. -/
inductive Event where
  | critTick
  | procTick
  | callInspect (mode : ProcessMode) (items : List RecentItemTuple)
  | callAbort (msg : String)
deriving DecidableEq

def stepEv (s : Inq) : Event → Inq
  | .critTick => crit_tick s
  | .procTick => proc_tick s
  | .callInspect mode items => do_process mode items s
  | .callAbort msg => (process_abort_core msg s).2

def runEvents (s : Inq) (es : List Event) : Inq :=
  es.foldl stepEv s

/-! ## Specification-side definitions and proof-support predicates -/

/-- The report a batch-report run should produce, following the
specification's per-item description: one row per input item in input
order; a cache-skipped item gets an empty match list; an item with a
missing or empty display value gets the single lint match and the
`'<unknown>'` / `'<empty>'` placeholder; every other item gets all
matching rules in rule order, and its key is cached when no rule
matched. -/
def reportSpec (rules : List CompiledCriterion) : Cache → List RecentItemTuple → Report
  | _, [] => []
  | cache, (uri, d) :: rest =>
    if uri ∈ cache then
      (uri, norm_display d, []) :: reportSpec rules cache rest
    else
      match d with
      | none => (uri, "<unknown>", [LINT_SIN]) :: reportSpec rules cache rest
      | some dv =>
        if dv = "" then
          (uri, "<empty>", [LINT_SIN]) :: reportSpec rules cache rest
        else
          (uri, dv, rules.filterMap (fun c => get_sin c dv)) ::
            reportSpec rules
              (if (rules.filterMap (fun c => get_sin c dv)).isEmpty then
                add_to_trustworthy_list cache uri
              else cache) rest

/-- Promise identities already handed out are below `nextId`.  Holds
in every reachable state; several theorems assume it so that the next
Promise is genuinely fresh. -/
def WFpids (s : Inq) : Prop :=
  (∀ e ∈ s.settled, e.1 < s.nextId) ∧
  (∀ c, s.crit = some c → c.pid < s.nextId) ∧
  (∀ p, s.proc = some p → p.pid < s.nextId)

/-- Invariant carried by a pending `set_criteria` call with Promise id
`pid0` and input `specs`, from the synchronous start of the call
through any interleaving of ticks and check calls: either validation
is still in progress (live criteria empty, the temporary list the
compilation of the validated prefix), or the call resolved (live
criteria the full compilation), or it rejected with a validation
error (live criteria empty). -/
def C1Inv (pid0 : Nat) (specs : List RawCriterion) (s : Inq) : Prop :=
  pid0 < s.nextId ∧
  (∀ p, s.proc = some p → p.pid ≠ pid0) ∧
  ((∃ c, s.crit = some c ∧ c.pid = pid0 ∧ c.specs = specs ∧ c.idx ≤ specs.length ∧
      compile_list (specs.take c.idx) = .ok c.temp ∧
      s.eligibility_criteria = [] ∧ (∀ o, (pid0, o) ∉ s.settled)) ∨
   (s.crit = none ∧
      (∃ l, compile_list specs = .ok l ∧ s.eligibility_criteria = l) ∧
      (pid0, Outcome.resolvedVoid) ∈ s.settled ∧
      (∀ o, (pid0, o) ∈ s.settled → o = Outcome.resolvedVoid)) ∨
   (s.crit = none ∧ s.eligibility_criteria = [] ∧
      (∃ msg, (pid0, Outcome.rejectedValidate msg) ∈ s.settled ∧
        (∀ o, (pid0, o) ∈ s.settled → o = Outcome.rejectedValidate msg))))

/-- Key family for cache counterexamples: `n` copies of `'a'`, so the
keys are pairwise distinct and `akey 0` is the empty string. -/
def akey (n : Nat) : String := String.mk (List.replicate n 'a')

/-! ## Basic lemmas -/

theorem String.length_pos_of_ne_empty {s : String} (h : s ≠ "") : 0 < s.length := by
  cases s with
  | mk data =>
    simp only [String.length]
    cases data with
    | nil => exact absurd rfl h
    | cons c cs => simp

theorem check_criteria_none (rules : List CompiledCriterion) :
    check_criteria rules none = [LINT_SIN] := rfl

theorem check_criteria_empty (rules : List CompiledCriterion) :
    check_criteria rules (some "") = [LINT_SIN] := by
  simp [check_criteria]

theorem check_criteria_present (rules : List CompiledCriterion) {dv : String} (h : dv ≠ "") :
    check_criteria rules (some dv) =
      rules.filterMap (fun c => get_sin c dv) := by
  simp [check_criteria, String.length_pos_of_ne_empty h]

theorem norm_display_present {dv : String} (h : dv ≠ "") :
    norm_display (some dv) = dv := by
  simp [norm_display, String.length_pos_of_ne_empty h]

/-- A cached item is skipped entirely by the loop body: state
untouched except for the empty-match report row in `REPORT` mode. -/
theorem process_item_cached (mode : ProcessMode) (rules : List CompiledCriterion)
    (st : ItemState) (uri : String) (d : Option String)
    (h : setHas st.cache uri = true) :
    process_item mode rules st (uri, d) =
      ⟨st.cache, st.emitted,
       if mode = ProcessMode.REPORT then st.report ++ [(uri, norm_display d, [])]
       else st.report⟩ := by
  simp [process_item, h]

/-- An unchecked item with a missing or empty display value gets the
single lint sin: emitted in `LAZY` mode, reported in `REPORT` mode,
never cached. -/
theorem process_item_lint (mode : ProcessMode) (rules : List CompiledCriterion)
    (st : ItemState) (uri : String) (d : Option String)
    (h : setHas st.cache uri = false) (hd : d = none ∨ d = some "") :
    process_item mode rules st (uri, d) =
      ⟨st.cache,
       (if mode = ProcessMode.LAZY then st.emitted ++ [(uri, LINT_SIN)] else st.emitted),
       (if mode = ProcessMode.REPORT then st.report ++ [(uri, norm_display d, [LINT_SIN])]
        else st.report)⟩ := by
  rcases hd with hd | hd <;> subst hd <;> cases mode <;>
    simp [process_item, h, check_criteria, LINT_SIN]

/-- An unchecked item with a present, non-empty display value: the
matching rules (in rule order) decide everything — first match emitted
in `LAZY` mode, all matches reported in `REPORT` mode, key cached
exactly when nothing matched. -/
theorem process_item_main (mode : ProcessMode) (rules : List CompiledCriterion)
    (st : ItemState) (uri dv : String)
    (h : setHas st.cache uri = false) (hdv : dv ≠ "") :
    process_item mode rules st (uri, some dv) =
      ⟨(if (rules.filterMap (fun c => get_sin c dv)).isEmpty then
          add_to_trustworthy_list st.cache uri
        else st.cache),
       (if mode = ProcessMode.LAZY then
          (match (rules.filterMap (fun c => get_sin c dv)).head? with
           | some s => st.emitted ++ [(uri, s)]
           | none => st.emitted)
        else st.emitted),
       (if mode = ProcessMode.REPORT then
          st.report ++ [(uri, dv, rules.filterMap (fun c => get_sin c dv))]
        else st.report)⟩ := by
  rcases hq : rules.filterMap (fun c => get_sin c dv) with _ | ⟨s0, ms⟩ <;>
    cases mode <;>
      simp [process_item, h, check_criteria_present rules hdv, hq,
        norm_display_present hdv]

/-! ## Claim C10 -/

/-- C10: in either mode, an item whose key is in the clean-item cache
when it is processed is skipped entirely — the cache, the emission log
and (in `LAZY` mode) the report are unchanged, no `'matched-result'`
event is emitted, and this holds for every display value and every
rule set; in `REPORT` mode the item is nevertheless appended to the
report with an empty match list. -/
theorem c10_cached_item_skipped (mode : ProcessMode) (rules : List CompiledCriterion)
    (st : ItemState) (uri : String) (d : Option String)
    (h : setHas st.cache uri = true) :
    process_item mode rules st (uri, d) =
      ⟨st.cache, st.emitted,
       if mode = ProcessMode.REPORT then st.report ++ [(uri, norm_display d, [])]
       else st.report⟩ :=
  process_item_cached mode rules st uri d h

/-- C10 witness: a concrete cached item with a missing display value
and a rule that would match everything is still skipped in both
modes. -/
theorem c10_cached_item_skipped_witness :
    (setHas ["k"] "k" = true ∧
      process_item ProcessMode.REPORT [⟨"glob", "*", .vstr "*"⟩] ⟨["k"], [], []⟩ ("k", none) =
        ⟨["k"], [], if ProcessMode.REPORT = ProcessMode.REPORT then
          ([] : Report) ++ [("k", norm_display none, [])] else []⟩) ∧
    (setHas ["k"] "k" = true ∧
      process_item ProcessMode.LAZY [⟨"glob", "*", .vstr "*"⟩] ⟨["k"], [], []⟩ ("k", none) =
        ⟨["k"], [], if ProcessMode.LAZY = ProcessMode.REPORT then
          ([] : Report) ++ [("k", norm_display none, [])] else []⟩) :=
  ⟨⟨by decide,
    c10_cached_item_skipped ProcessMode.REPORT [⟨"glob", "*", .vstr "*"⟩] ⟨["k"], [], []⟩
      "k" none (by decide)⟩,
   ⟨by decide,
    c10_cached_item_skipped ProcessMode.LAZY [⟨"glob", "*", .vstr "*"⟩] ⟨["k"], [], []⟩
      "k" none (by decide)⟩⟩

/-! ## Claim C8 -/

/-- C8: in streaming (`LAZY`) mode, for an uncached item with a
present, non-empty display value the rules are consulted in order and
the first match decides: if the matching rules (in rule order) start
with `sin`, exactly one `'matched-result'` event carrying `sin` is
emitted and the key is not cached; if no rule matches, nothing is
emitted and the key is cached. -/
theorem c8_lazy_first_match (rules : List CompiledCriterion)
    (st : ItemState) (uri dv : String)
    (h : setHas st.cache uri = false) (hdv : dv ≠ "") :
    (∀ sin ms, rules.filterMap (fun c => get_sin c dv) = sin :: ms →
      process_item ProcessMode.LAZY rules st (uri, some dv) =
        ⟨st.cache, st.emitted ++ [(uri, sin)], st.report⟩) ∧
    (rules.filterMap (fun c => get_sin c dv) = [] →
      process_item ProcessMode.LAZY rules st (uri, some dv) =
        ⟨add_to_trustworthy_list st.cache uri, st.emitted, st.report⟩) := by
  constructor
  · intro sin ms hq
    rw [process_item_main ProcessMode.LAZY rules st uri dv h hdv]
    simp [hq]
  · intro hq
    rw [process_item_main ProcessMode.LAZY rules st uri dv h hdv]
    simp [hq]

/-- C8 witness: with rules `*.tmp`, `*`, the item `x.tmp` triggers
exactly one event carrying the `*.tmp` match (the first in rule
order, although both match) and is not cached; `x.txt` matches `*.tmp`
not at all and only a later rule in a different run would; with the
single rule `*.tmp` it is cached silently. -/
theorem c8_lazy_first_match_witness :
    (process_item ProcessMode.LAZY
        [⟨"glob", "*.tmp", .vstr "first"⟩, ⟨"glob", "*", .vstr "second"⟩]
        ⟨[], [], []⟩ ("a", some "x.tmp") =
      ⟨[], [] ++ [("a", ("glob", .vstr "first"))], []⟩) ∧
    (process_item ProcessMode.LAZY [⟨"glob", "*.tmp", .vstr "first"⟩]
        ⟨[], [], []⟩ ("b", some "x.txt") =
      ⟨add_to_trustworthy_list [] "b", [], []⟩) :=
  ⟨(c8_lazy_first_match
      [⟨"glob", "*.tmp", .vstr "first"⟩, ⟨"glob", "*", .vstr "second"⟩]
      ⟨[], [], []⟩ "a" "x.tmp" (by decide) (by decide)).1
      ("glob", .vstr "first") [("glob", .vstr "second")] (by simp [get_sin, globMatch]),
   (c8_lazy_first_match [⟨"glob", "*.tmp", .vstr "first"⟩]
      ⟨[], [], []⟩ "b" "x.txt" (by decide) (by decide)).2 (by simp [get_sin, globMatch])⟩

/-! ## Claim C4 (corrected) -/

/-- C4 counterexample: the claim fails for an item whose key is in the
clean-item cache.  On a real run from a fresh engine, `"k"` is first
classified clean (display `"x"`, no rules) and cached; a second
classification of `"k"`, now with a missing display value, is
cache-skipped: its report row carries an empty match list instead of
the single lint match, and no event is emitted in streaming mode. -/
theorem c4_missing_display_cex :
    (setHas (proc_tick (do_process ProcessMode.LAZY [("k", some "x")] init)).trustworthy_list
        "k" = true) ∧
    ((proc_tick (do_process ProcessMode.REPORT [("k", none)]
        (proc_tick (do_process ProcessMode.LAZY [("k", some "x")] init)))).settled.getLast? =
      some (1, Outcome.resolvedReport [("k", "<unknown>", [])])) ∧
    ((proc_tick (do_process ProcessMode.LAZY [("k", none)]
        (proc_tick (do_process ProcessMode.LAZY [("k", some "x")] init)))).emitted = []) := by
  decide

/-- C4 as amended: for every item whose key is *not* in the clean-item
cache and whose display value is missing or empty, classification in
either mode yields the single lint match for that item — emitted in
streaming mode, reported with the placeholder display in report mode,
the key never cached — and no glob rule is evaluated: the outcome is
identical for every two rule sets. -/
theorem c4_missing_display_lint (mode : ProcessMode)
    (rules rules' : List CompiledCriterion) (st : ItemState)
    (uri : String) (d : Option String)
    (h : setHas st.cache uri = false) (hd : d = none ∨ d = some "") :
    process_item mode rules st (uri, d) =
      ⟨st.cache,
       (if mode = ProcessMode.LAZY then st.emitted ++ [(uri, LINT_SIN)] else st.emitted),
       (if mode = ProcessMode.REPORT then st.report ++ [(uri, norm_display d, [LINT_SIN])]
        else st.report)⟩ ∧
    process_item mode rules st (uri, d) = process_item mode rules' st (uri, d) := by
  refine ⟨process_item_lint mode rules st uri d h hd, ?_⟩
  rw [process_item_lint mode rules st uri d h hd,
    process_item_lint mode rules' st uri d h hd]

/-- C4 witness: a fresh uncached key with an empty display value under
a rule set that would match anything still yields exactly the lint
match, identically to what the empty rule set yields. -/
theorem c4_missing_display_lint_witness :
    process_item ProcessMode.LAZY [⟨"glob", "*", .vstr "*"⟩] ⟨[], [], []⟩ ("c", some "") =
      ⟨[], (if ProcessMode.LAZY = ProcessMode.LAZY then
              ([] : List (String × SinInfo)) ++ [("c", LINT_SIN)] else []),
          (if ProcessMode.LAZY = ProcessMode.REPORT then
              ([] : Report) ++ [("c", norm_display (some ""), [LINT_SIN])] else [])⟩ ∧
    process_item ProcessMode.LAZY [⟨"glob", "*", .vstr "*"⟩] ⟨[], [], []⟩ ("c", some "") =
      process_item ProcessMode.LAZY [] ⟨[], [], []⟩ ("c", some "") :=
  c4_missing_display_lint ProcessMode.LAZY [⟨"glob", "*", .vstr "*"⟩] [] ⟨[], [], []⟩
    "c" (some "") (by decide) (Or.inr rfl)

end Inquisitor

namespace Inquisitor

/-! ## Claim C3 (corrected) -/

set_option maxRecDepth 100000 in
/-- C3 counterexample: with the cache at capacity `MAX_CACHE_SIZE`,
re-adding a key that is already present is *not* a no-op — here
re-adding the oldest key first evicts (deletes) it and then re-inserts
it at the newest position, so the cache is reordered. -/
theorem c3_readd_at_capacity_cex :
    (setHas ((List.range MAX_CACHE_SIZE).map (fun n => akey (n + 1))) (akey 1) = true) ∧
    add_to_trustworthy_list ((List.range MAX_CACHE_SIZE).map (fun n => akey (n + 1)))
        (akey 1) ≠
      (List.range MAX_CACHE_SIZE).map (fun n => akey (n + 1)) := by
  decide

/-- C3 as amended: for every cache state strictly below capacity,
re-adding a key that is already present is a no-op — no eviction, no
reordering, the cache is unchanged.  (At capacity the add evicts the
oldest key first even when the added key is already present.) -/
theorem c3_readd_noop_below_capacity (c : Cache) (k : String)
    (h : setHas c k = true) (hlen : c.length < MAX_CACHE_SIZE) :
    add_to_trustworthy_list c k = c := by
  simp only [setHas, decide_eq_true_eq] at h
  simp [add_to_trustworthy_list, setAdd, Nat.not_le.mpr hlen, h]

/-- C3 witness: re-adding the present key `"x"` to the two-element
cache `["x", "y"]` leaves it unchanged. -/
theorem c3_readd_noop_below_capacity_witness :
    setHas ["x", "y"] "x" = true ∧ (["x", "y"] : Cache).length < MAX_CACHE_SIZE ∧
      add_to_trustworthy_list ["x", "y"] "x" = ["x", "y"] :=
  ⟨by decide, by decide,
   c3_readd_noop_below_capacity ["x", "y"] "x" (by decide) (by decide)⟩

end Inquisitor

namespace Inquisitor

/-! ## Claim C6 (code bug: the empty-string key escapes eviction) -/

theorem akey_length (n : Nat) : (akey n).length = n := by
  simp [akey, String.length]

theorem akey_injective : Function.Injective akey := by
  intro m n h
  have := congrArg String.length h
  simpa [akey_length] using this

theorem akey_zero : akey 0 = "" := rfl

/-- Adding a fresh key to a cache below capacity appends it. -/
theorem add_to_trustworthy_list_fresh {c : Cache} {k : String}
    (hk : k ∉ c) (hlen : c.length < MAX_CACHE_SIZE) :
    add_to_trustworthy_list c k = c ++ [k] := by
  simp [add_to_trustworthy_list, setAdd, Nat.not_le.mpr hlen, hk]

/-- Filling a cache with fresh, pairwise distinct keys up to capacity
simply appends them. -/
theorem foldl_add_fresh (ks : List String) : ∀ (c : Cache),
    (c ++ ks).Nodup → c.length + ks.length ≤ MAX_CACHE_SIZE →
    List.foldl add_to_trustworthy_list c ks = c ++ ks := by
  induction ks with
  | nil => intro c _ _; simp
  | cons k ks ih =>
    intro c hnd hlen
    have hk : k ∉ c := fun hkc =>
      (List.nodup_append.mp hnd).2.2 hkc (List.mem_cons_self k ks)
    rw [List.foldl_cons,
      add_to_trustworthy_list_fresh hk (by simp at hlen ⊢; omega),
      ih (c ++ [k]) (by simpa using hnd) (by simp at hlen ⊢; omega)]
    simp

end Inquisitor

namespace Inquisitor

/-- C6: inserting `MAX_CACHE_SIZE + 1` pairwise distinct keys into an
empty cache whose first key is the empty string leaves the cache at
`MAX_CACHE_SIZE + 1` entries with the first key still present: the
`if (oldest_uri)` truthiness guard in `add_to_trustworthy_list` skips
eviction when the oldest key is the falsy `""`, violating the
documented `size <= MAX_CACHE_SIZE` invariant and the claimed FIFO
eviction of the first-inserted key. -/
theorem c6_empty_string_key_breaks_bound :
    ((List.range (MAX_CACHE_SIZE + 1)).map akey).Nodup ∧
    ((List.range (MAX_CACHE_SIZE + 1)).map akey).length = MAX_CACHE_SIZE + 1 ∧
    (List.foldl add_to_trustworthy_list []
        ((List.range (MAX_CACHE_SIZE + 1)).map akey)).length = MAX_CACHE_SIZE + 1 ∧
    akey 0 ∈ List.foldl add_to_trustworthy_list []
        ((List.range (MAX_CACHE_SIZE + 1)).map akey) := by
  have hnodup : ∀ m : Nat, ((List.range m).map akey).Nodup := fun m =>
    (List.nodup_range m).map akey_injective
  have hfreshlast : akey MAX_CACHE_SIZE ∉ (List.range MAX_CACHE_SIZE).map akey := by
    intro hmem
    rcases List.mem_map.mp hmem with ⟨n, hn, he⟩
    have h1 : n < MAX_CACHE_SIZE := List.mem_range.mp hn
    have h2 : n = MAX_CACHE_SIZE := akey_injective he
    omega
  have hsplit : (List.range (MAX_CACHE_SIZE + 1)).map akey =
      (List.range MAX_CACHE_SIZE).map akey ++ [akey MAX_CACHE_SIZE] := by
    rw [List.range_succ, List.map_append, List.map_singleton]
  have hlen1000 : ((List.range MAX_CACHE_SIZE).map akey).length = MAX_CACHE_SIZE := by
    simp
  have hfill : List.foldl add_to_trustworthy_list []
      ((List.range MAX_CACHE_SIZE).map akey) = (List.range MAX_CACHE_SIZE).map akey := by
    have := foldl_add_fresh ((List.range MAX_CACHE_SIZE).map akey) []
      (by simpa using hnodup MAX_CACHE_SIZE) (by simp)
    simpa using this
  have hhead : ((List.range MAX_CACHE_SIZE).map akey).head? = some (akey 0) := by
    show ((List.range (999 + 1)).map akey).head? = some (akey 0)
    rw [List.range_succ_eq_map]
    simp
  have hlast : List.foldl add_to_trustworthy_list []
      ((List.range (MAX_CACHE_SIZE + 1)).map akey) =
      (List.range MAX_CACHE_SIZE).map akey ++ [akey MAX_CACHE_SIZE] := by
    rw [hsplit, List.foldl_append, hfill, List.foldl_cons, List.foldl_nil]
    have hhead0 : ((List.range MAX_CACHE_SIZE).map akey).head? = some "" := by
      rw [hhead, akey_zero]
    simp [add_to_trustworthy_list, hlen1000, hhead0, setAdd, hfreshlast]
  refine ⟨hnodup _, by simp, ?_, ?_⟩
  · rw [hlast]
    simp [hlen1000]
  · rw [hlast]
    refine List.mem_append_left _ (List.mem_map.mpr ⟨0, List.mem_range.mpr ?_, rfl⟩)
    simp [MAX_CACHE_SIZE]

end Inquisitor

namespace Inquisitor

/-! ## Running a check operation to completion -/

theorem proc_tick_none {s : Inq} (h : s.proc = none) : proc_tick s = s := by
  simp [proc_tick, h]

theorem iterate_proc_tick_none {s : Inq} (h : s.proc = none) (n : Nat) :
    proc_tick^[n] s = s := by
  induction n with
  | zero => rfl
  | succ n ih => rw [Function.iterate_succ_apply, proc_tick_none h, ih]

theorem process_item_lazy_report (rules : List CompiledCriterion)
    (st : ItemState) (it : RecentItemTuple) :
    (process_item ProcessMode.LAZY rules st it).report = st.report := by
  simp [process_item]

theorem process_batch_lazy_report (rules : List CompiledCriterion)
    (l : List RecentItemTuple) : ∀ st : ItemState,
    (process_batch ProcessMode.LAZY rules st l).report = st.report := by
  induction l with
  | nil => intro st; rfl
  | cons it l ih =>
    intro st
    rw [process_batch, List.foldl_cons]
    rw [show List.foldl (process_item ProcessMode.LAZY rules)
      (process_item ProcessMode.LAZY rules st it) l =
      process_batch ProcessMode.LAZY rules (process_item ProcessMode.LAZY rules st it) l
      from rfl]
    rw [ih, process_item_lazy_report]

/-- After `k + 1` undisturbed ticks, a pending check operation whose
item list has at most `k` items has run to completion: the cache, the
emission log and the report hold the accumulated result of the whole
pass, the interval is cleared, and the operation's Promise has
resolved — with the report in `REPORT` mode, with no value in `LAZY`
mode. -/
theorem proc_tick_run : ∀ (k : Nat) (s : Inq) (p : ProcOp),
    s.proc = some p → p.items.length ≤ k →
    proc_tick^[k + 1] s =
      { s with
        trustworthy_list := (run_proc p.mode s.eligibility_criteria
          ⟨s.trustworthy_list, s.emitted, s.report.getD []⟩ p.items).cache,
        emitted := (run_proc p.mode s.eligibility_criteria
          ⟨s.trustworthy_list, s.emitted, s.report.getD []⟩ p.items).emitted,
        report := if p.mode = ProcessMode.REPORT then
            some (run_proc p.mode s.eligibility_criteria
              ⟨s.trustworthy_list, s.emitted, s.report.getD []⟩ p.items).report
          else s.report,
        proc := none,
        settled := s.settled ++ [(p.pid,
          if p.mode = ProcessMode.REPORT then
            Outcome.resolvedReport (run_proc p.mode s.eligibility_criteria
              ⟨s.trustworthy_list, s.emitted, s.report.getD []⟩ p.items).report
          else Outcome.resolvedVoid)] } := by
  intro k
  induction k with
  | zero =>
    intro s p hp hlen
    have hnil : p.items = [] := List.length_eq_zero.mp (Nat.le_zero.mp hlen)
    rw [Function.iterate_one]
    simp only [proc_tick, hp, hnil]
    cases hm : p.mode <;> simp [run_proc, process_batch, hm]
  | succ k ih =>
    intro s p hp hlen
    rcases hdrop : p.items.drop (if p.mode = ProcessMode.REPORT then BATCH_SIZE else 1)
      with _ | ⟨it2, rest2⟩
    · -- the whole list fits in one batch: the first tick settles
      have htake : p.items.take
          (if p.mode = ProcessMode.REPORT then BATCH_SIZE else 1) = p.items :=
        List.take_of_length_le (List.drop_eq_nil_iff.mp hdrop)
      have hfirst : proc_tick s =
          { s with
            trustworthy_list := (run_proc p.mode s.eligibility_criteria
              ⟨s.trustworthy_list, s.emitted, s.report.getD []⟩ p.items).cache,
            emitted := (run_proc p.mode s.eligibility_criteria
              ⟨s.trustworthy_list, s.emitted, s.report.getD []⟩ p.items).emitted,
            report := if p.mode = ProcessMode.REPORT then
                some (run_proc p.mode s.eligibility_criteria
                  ⟨s.trustworthy_list, s.emitted, s.report.getD []⟩ p.items).report
              else s.report,
            proc := none,
            settled := s.settled ++ [(p.pid,
              if p.mode = ProcessMode.REPORT then
                Outcome.resolvedReport (run_proc p.mode s.eligibility_criteria
                  ⟨s.trustworthy_list, s.emitted, s.report.getD []⟩ p.items).report
              else Outcome.resolvedVoid)] } := by
        simp only [proc_tick, hp, htake, hdrop]
        cases hm : p.mode <;> simp [run_proc, process_batch, hm]
      rw [Function.iterate_succ_apply, hfirst, iterate_proc_tick_none rfl]
    · -- at least one more tick is needed after the first
      have hld := List.length_drop
        (if p.mode = ProcessMode.REPORT then BATCH_SIZE else 1) p.items
      rw [hdrop] at hld
      have hn1 : 1 ≤ (if p.mode = ProcessMode.REPORT then BATCH_SIZE else 1) := by
        cases p.mode <;> simp [BATCH_SIZE]
      have hlen2 : (it2 :: rest2).length ≤ k := by
        rw [hld]
        omega
      have hsplit : p.items =
          p.items.take (if p.mode = ProcessMode.REPORT then BATCH_SIZE else 1) ++
            it2 :: rest2 := by
        conv_lhs => rw [← List.take_append_drop
          (if p.mode = ProcessMode.REPORT then BATCH_SIZE else 1) p.items, hdrop]
      rcases hZ : process_batch p.mode s.eligibility_criteria
          ⟨s.trustworthy_list, s.emitted, s.report.getD []⟩
          (p.items.take (if p.mode = ProcessMode.REPORT then BATCH_SIZE else 1))
        with ⟨zc, ze, zr⟩
      have hfullZ : run_proc p.mode s.eligibility_criteria
          ⟨s.trustworthy_list, s.emitted, s.report.getD []⟩ p.items =
            run_proc p.mode s.eligibility_criteria ⟨zc, ze, zr⟩ (it2 :: rest2) := by
        conv_lhs => rw [run_proc, hsplit]
        rw [List.foldl_append]
        exact congrArg
          (fun st => List.foldl (process_item p.mode s.eligibility_criteria) st
            (it2 :: rest2)) hZ
      have hs' : proc_tick s = { s with
          trustworthy_list := zc,
          emitted := ze,
          report := if p.mode = ProcessMode.REPORT then some zr else s.report,
          proc := some ⟨p.pid, p.mode, it2 :: rest2⟩ } := by
        simp only [proc_tick, hp, hdrop, hZ]
        simp
      rw [Function.iterate_succ_apply, hs',
        ih _ ⟨p.pid, p.mode, it2 :: rest2⟩ rfl hlen2]
      cases hm : p.mode
      · -- LAZY: the report accumulator is untouched throughout
        rw [hm] at hZ hfullZ
        simp only [reduceCtorEq, if_neg, ite_false] at hZ hfullZ
        have hrepz : zr = s.report.getD [] := by
          have h2 := process_batch_lazy_report s.eligibility_criteria
            (p.items.take 1) ⟨s.trustworthy_list, s.emitted, s.report.getD []⟩
          rw [hZ] at h2
          exact h2
        rw [hfullZ]
        simp [hrepz]
      · -- REPORT: the batch result is carried in the report field
        rw [hm] at hZ hfullZ
        rw [hfullZ]
        simp

end Inquisitor
namespace Inquisitor

/-! ## Claim C7 -/

theorem reportSpec_length (rules : List CompiledCriterion) :
    ∀ (items : List RecentItemTuple) (cache : Cache),
    (reportSpec rules cache items).length = items.length := by
  intro items
  induction items with
  | nil => intro cache; rfl
  | cons it rest ih =>
    intro cache
    obtain ⟨uri, d⟩ := it
    by_cases hc : uri ∈ cache
    · simp [reportSpec, hc, ih]
    · cases d with
      | none => simp [reportSpec, hc, ih]
      | some dv =>
        by_cases hdv : dv = "" <;> simp [reportSpec, hc, hdv, ih]

theorem reportSpec_keys (rules : List CompiledCriterion) :
    ∀ (items : List RecentItemTuple) (cache : Cache),
    (reportSpec rules cache items).map Prod.fst = items.map Prod.fst := by
  intro items
  induction items with
  | nil => intro cache; rfl
  | cons it rest ih =>
    intro cache
    obtain ⟨uri, d⟩ := it
    by_cases hc : uri ∈ cache
    · simp [reportSpec, hc, ih]
    · cases d with
      | none => simp [reportSpec, hc, ih]
      | some dv =>
        by_cases hdv : dv = "" <;> simp [reportSpec, hc, hdv, ih]

/-- A full `REPORT`-mode pass appends exactly the specification-side
report to the accumulator. -/
theorem run_report_spec (rules : List CompiledCriterion) :
    ∀ (items : List RecentItemTuple) (cache : Cache)
      (em : List (String × SinInfo)) (r0 : Report),
    (run_proc ProcessMode.REPORT rules ⟨cache, em, r0⟩ items).report
      = r0 ++ reportSpec rules cache items := by
  intro items
  induction items with
  | nil => intro cache em r0; simp [run_proc, reportSpec]
  | cons it rest ih =>
    intro cache em r0
    obtain ⟨uri, d⟩ := it
    rw [run_proc, List.foldl_cons]
    by_cases hc : uri ∈ cache
    · rw [process_item_cached ProcessMode.REPORT rules ⟨cache, em, r0⟩ uri d
        (by simp [setHas, hc])]
      rw [show ∀ st l, List.foldl (process_item ProcessMode.REPORT rules) st l =
          run_proc ProcessMode.REPORT rules st l from fun _ _ => rfl]
      simp only [reduceCtorEq, reduceIte, ite_true, ite_false]
      rw [ih cache em (r0 ++ [(uri, norm_display d, [])])]
      simp [reportSpec, hc]
    · have hcb : setHas cache uri = false := by simp [setHas, hc]
      cases d with
      | none =>
        rw [process_item_lint ProcessMode.REPORT rules ⟨cache, em, r0⟩ uri none hcb
          (Or.inl rfl)]
        rw [show ∀ st l, List.foldl (process_item ProcessMode.REPORT rules) st l =
            run_proc ProcessMode.REPORT rules st l from fun _ _ => rfl]
        simp only [reduceCtorEq, reduceIte, ite_true, ite_false]
        rw [ih cache em (r0 ++ [(uri, norm_display none, [LINT_SIN])])]
        simp [reportSpec, hc, norm_display]
      | some dv =>
        by_cases hdv : dv = ""
        · subst hdv
          rw [process_item_lint ProcessMode.REPORT rules ⟨cache, em, r0⟩ uri (some "")
            hcb (Or.inr rfl)]
          rw [show ∀ st l, List.foldl (process_item ProcessMode.REPORT rules) st l =
              run_proc ProcessMode.REPORT rules st l from fun _ _ => rfl]
          simp only [reduceCtorEq, reduceIte, ite_true, ite_false]
          rw [ih cache em (r0 ++ [(uri, norm_display (some ""), [LINT_SIN])])]
          simp [reportSpec, hc, norm_display]
        · rw [process_item_main ProcessMode.REPORT rules ⟨cache, em, r0⟩ uri dv hcb hdv]
          rw [show ∀ st l, List.foldl (process_item ProcessMode.REPORT rules) st l =
              run_proc ProcessMode.REPORT rules st l from fun _ _ => rfl]
          simp only [reduceCtorEq, reduceIte, ite_true, ite_false]
          rw [ih (if (rules.filterMap (fun c => get_sin c dv)).isEmpty then
              add_to_trustworthy_list cache uri else cache) em
            (r0 ++ [(uri, dv, rules.filterMap (fun c => get_sin c dv))])]
          simp [reportSpec, hc, hdv]

end Inquisitor

namespace Inquisitor

/-- C7: an `inspect_to_report` call left to run to completion resolves
its Promise with exactly the specification report: one row per input
item in input order (the key lists coincide), where — per
`reportSpec` — a cache-skipped item has an empty match list, an item
with a missing or empty display value has the single lint match and
the `'<unknown>'` / `'<empty>'` placeholder, and every other item
carries all rules matching its display value, in rule order. -/
theorem c7_report_complete (s : Inq) (items : List RecentItemTuple)
    (hp : s.proc = none) :
    (proc_tick^[items.length + 1] (do_process ProcessMode.REPORT items s)).settled =
        s.settled ++ [(s.nextId, Outcome.resolvedReport
          (reportSpec s.eligibility_criteria s.trustworthy_list items))] ∧
    (proc_tick^[items.length + 1] (do_process ProcessMode.REPORT items s)).proc = none ∧
    (reportSpec s.eligibility_criteria s.trustworthy_list items).length = items.length ∧
    (reportSpec s.eligibility_criteria s.trustworthy_list items).map Prod.fst
      = items.map Prod.fst := by
  have hdp : do_process ProcessMode.REPORT items s =
      { s with
        report := some [],
        proc := some ⟨s.nextId, ProcessMode.REPORT, items⟩,
        nextId := s.nextId + 1 } := by
    simp [do_process, process_abort_core, hp]
  have hrun := proc_tick_run items.length
    { s with
      report := some [],
      proc := some ⟨s.nextId, ProcessMode.REPORT, items⟩,
      nextId := s.nextId + 1 } ⟨s.nextId, ProcessMode.REPORT, items⟩ rfl (le_refl _)
  rw [hdp, hrun]
  have hrep := run_report_spec s.eligibility_criteria items s.trustworthy_list s.emitted []
  refine ⟨?_, rfl, reportSpec_length _ _ _, reportSpec_keys _ _ _⟩
  simp only [Option.getD_some]
  rw [hrep]
  simp

/-- C7 witness: the specification's report scenario — rules
`[*.tmp]`, items `x.tmp` and `x.txt` — runs to completion on a fresh
engine, and the resolved report is exactly as the specification
states. -/
theorem c7_report_complete_witness :
    ((proc_tick^[([("a", some "x.tmp"), ("b", some "x.txt")] :
          List RecentItemTuple).length + 1]
        (do_process ProcessMode.REPORT [("a", some "x.tmp"), ("b", some "x.txt")]
          { init with eligibility_criteria :=
            [⟨"glob", "*.tmp", .vstr "*.tmp"⟩] })).settled =
      ([] : List (Nat × Outcome)) ++ [(0, Outcome.resolvedReport
        (reportSpec [⟨"glob", "*.tmp", .vstr "*.tmp"⟩] []
          [("a", some "x.tmp"), ("b", some "x.txt")]))]) ∧
    reportSpec [⟨"glob", "*.tmp", .vstr "*.tmp"⟩] []
        [("a", some "x.tmp"), ("b", some "x.txt")] =
      [("a", "x.tmp", [("glob", .vstr "*.tmp")]), ("b", "x.txt", [])] := by
  constructor
  · exact (c7_report_complete
      { init with eligibility_criteria := [⟨"glob", "*.tmp", .vstr "*.tmp"⟩] }
      [("a", some "x.tmp"), ("b", some "x.txt")] rfl).1
  · simp [reportSpec, get_sin, globMatch, add_to_trustworthy_list, setAdd,
      MAX_CACHE_SIZE]

end Inquisitor

namespace Inquisitor

/-! ## Claim C2 -/

theorem range_map_shift (base m : Nat) (o : Outcome) :
    (List.range (m + 1)).map (fun i => (base + i, o)) =
      (base, o) :: (List.range m).map (fun i => (base + 1 + i, o)) := by
  rw [List.range_succ_eq_map, List.map_cons, List.map_map]
  congr 1
  refine List.map_congr_left ?_
  intro i _
  simp only [Function.comp_apply]
  have h : base + (i + 1) = base + 1 + i := by omega
  rw [h]

/-- Folding further `do_process` calls over an engine with an active
check rejects the active Promise and then each intermediate new
Promise with `ProcessAbortError('New process will be initiated')`,
leaving only the operation of the last call pending. -/
theorem do_process_fold (reqs : List (ProcessMode × List RecentItemTuple)) :
    ∀ (s : Inq) (p : ProcOp), s.proc = some p → reqs ≠ [] →
    ((reqs.foldl (fun st r => do_process r.1 r.2 st) s).settled =
        s.settled ++ (p.pid, Outcome.rejectedAbort "New process will be initiated") ::
          (List.range (reqs.length - 1)).map
            (fun i => (s.nextId + i, Outcome.rejectedAbort "New process will be initiated"))) ∧
    (∃ q : ProcOp, (reqs.foldl (fun st r => do_process r.1 r.2 st) s).proc = some q ∧
      q.pid = s.nextId + (reqs.length - 1)) := by
  induction reqs with
  | nil => intro s p hp hne; exact absurd rfl hne
  | cons r rest ih =>
    intro s p hp _
    have hs1 : do_process r.1 r.2 s =
        { s with
          report := if r.1 = ProcessMode.REPORT then some [] else none,
          proc := some ⟨s.nextId, r.1, r.2⟩,
          settled := s.settled ++
            [(p.pid, Outcome.rejectedAbort "New process will be initiated")],
          nextId := s.nextId + 1 } := by
      simp [do_process, process_abort_core, hp]
    rw [List.foldl_cons, hs1]
    rcases hrest : rest with _ | ⟨r2, rest2⟩
    · simp
    · rw [← hrest]
      have hne2 : rest ≠ [] := by rw [hrest]; exact List.cons_ne_nil _ _
      obtain ⟨hset, q, hq, hqpid⟩ := ih
        { s with
          report := if r.1 = ProcessMode.REPORT then some [] else none,
          proc := some ⟨s.nextId, r.1, r.2⟩,
          settled := s.settled ++
            [(p.pid, Outcome.rejectedAbort "New process will be initiated")],
          nextId := s.nextId + 1 }
        ⟨s.nextId, r.1, r.2⟩ rfl hne2
      have hlen1 : 1 ≤ rest.length := by
        rw [hrest]; simp
      constructor
      · rw [hset]
        rw [show (r :: rest).length - 1 = (rest.length - 1) + 1 by simp; omega,
          range_map_shift]
        simp
      · exact ⟨q, hq, by simp at hqpid ⊢; omega⟩

/-- C2: for `N ≥ 2` back-to-back classification calls (either mode)
on an engine with no check running, every call supersedes the one
before it: each of the first `N - 1` Promises rejects with
`ProcessAbortError('New process will be initiated')`, and running the
last operation to completion fulfils exactly the last Promise — the
settlement log ends with the first `N - 1` rejections followed by the
last call's resolution. -/
theorem c2_supersession (s : Inq) (reqs : List (ProcessMode × List RecentItemTuple))
    (h2 : 2 ≤ reqs.length) (hp : s.proc = none) :
    ∃ (n : Nat) (out : Outcome), out.isResolved = true ∧
      (proc_tick^[n] (reqs.foldl (fun st r => do_process r.1 r.2 st) s)).settled =
        s.settled ++
          (List.range (reqs.length - 1)).map
            (fun i => (s.nextId + i,
              Outcome.rejectedAbort "New process will be initiated")) ++
          [(s.nextId + (reqs.length - 1), out)] := by
  rcases hreqs : reqs with _ | ⟨r, rest⟩
  · rw [hreqs] at h2; simp at h2
  · have hs1 : do_process r.1 r.2 s =
        { s with
          report := if r.1 = ProcessMode.REPORT then some [] else none,
          proc := some ⟨s.nextId, r.1, r.2⟩,
          nextId := s.nextId + 1 } := by
      simp [do_process, process_abort_core, hp]
    have hne2 : rest ≠ [] := by
      rw [hreqs] at h2
      rcases rest with _ | _
      · simp at h2
      · exact List.cons_ne_nil _ _
    rw [List.foldl_cons, hs1]
    obtain ⟨hset, q, hq, hqpid⟩ := do_process_fold rest
      { s with
        report := if r.1 = ProcessMode.REPORT then some [] else none,
        proc := some ⟨s.nextId, r.1, r.2⟩,
        nextId := s.nextId + 1 }
      ⟨s.nextId, r.1, r.2⟩ rfl hne2
    refine ⟨q.items.length + 1,
      (if q.mode = ProcessMode.REPORT then
        Outcome.resolvedReport (run_proc q.mode
          (rest.foldl (fun st r => do_process r.1 r.2 st)
            { s with
              report := if r.1 = ProcessMode.REPORT then some [] else none,
              proc := some ⟨s.nextId, r.1, r.2⟩,
              nextId := s.nextId + 1 }).eligibility_criteria
          ⟨(rest.foldl (fun st r => do_process r.1 r.2 st)
              { s with
                report := if r.1 = ProcessMode.REPORT then some [] else none,
                proc := some ⟨s.nextId, r.1, r.2⟩,
                nextId := s.nextId + 1 }).trustworthy_list,
            (rest.foldl (fun st r => do_process r.1 r.2 st)
              { s with
                report := if r.1 = ProcessMode.REPORT then some [] else none,
                proc := some ⟨s.nextId, r.1, r.2⟩,
                nextId := s.nextId + 1 }).emitted,
            ((rest.foldl (fun st r => do_process r.1 r.2 st)
              { s with
                report := if r.1 = ProcessMode.REPORT then some [] else none,
                proc := some ⟨s.nextId, r.1, r.2⟩,
                nextId := s.nextId + 1 }).report.getD [])⟩ q.items).report
      else Outcome.resolvedVoid), ?_, ?_⟩
    · cases q.mode <;> simp [Outcome.isResolved]
    · rw [proc_tick_run q.items.length _ q hq (le_refl _)]
      simp only []
      rw [hset]
      simp only [List.append_assoc, List.singleton_append]
      congr 1
      have hl1 : 1 ≤ rest.length := by
        rcases rest with _ | _
        · exact absurd rfl hne2
        · simp
      rw [show (r :: rest).length - 1 = (rest.length - 1) + 1 by simp; omega,
        range_map_shift]
      have hqpid2 : q.pid = s.nextId + 1 + (rest.length - 1) := by
        simpa using hqpid
      rw [hqpid2]
      have harith : s.nextId + 1 + (rest.length - 1) =
          s.nextId + (rest.length - 1 + 1) := by omega
      rw [harith]

end Inquisitor

namespace Inquisitor

/-- C2 witness: two back-to-back calls — a streaming one immediately
superseded by a report one — on a fresh engine: Promise 0 rejects with
the supersession message and Promise 1 resolves. -/
theorem c2_supersession_witness :
    ∃ (n : Nat) (out : Outcome), out.isResolved = true ∧
      (proc_tick^[n]
          (([(ProcessMode.LAZY, [("a", some "x")]),
             (ProcessMode.REPORT, [("b", none)])] :
              List (ProcessMode × List RecentItemTuple)).foldl
            (fun st r => do_process r.1 r.2 st) init)).settled =
        init.settled ++
          (List.range (([(ProcessMode.LAZY, [("a", some "x")]),
              (ProcessMode.REPORT, [("b", none)])] :
                List (ProcessMode × List RecentItemTuple)).length - 1)).map
            (fun i => (init.nextId + i,
              Outcome.rejectedAbort "New process will be initiated")) ++
          [(init.nextId + (([(ProcessMode.LAZY, [("a", some "x")]),
              (ProcessMode.REPORT, [("b", none)])] :
                List (ProcessMode × List RecentItemTuple)).length - 1), out)] :=
  c2_supersession init
    [(ProcessMode.LAZY, [("a", some "x")]), (ProcessMode.REPORT, [("b", none)])]
    (by decide) rfl

/-! ## crit_tick case lemmas -/

theorem crit_tick_idle {s : Inq} (h : s.crit = none) : crit_tick s = s := by
  simp [crit_tick, h]

theorem crit_tick_publish {s : Inq} {c : CritOp} (h : s.crit = some c)
    (hidx : c.specs.length ≤ c.idx) :
    crit_tick s = { s with
      eligibility_criteria := c.temp,
      crit := none,
      settled := s.settled ++ [(c.pid, Outcome.resolvedVoid)] } := by
  simp [crit_tick, h, hidx]

theorem crit_tick_step {s : Inq} {c : CritOp} {cr : RawCriterion}
    {cc : CompiledCriterion} (h : s.crit = some c) (hidx : ¬ c.specs.length ≤ c.idx)
    (hget : c.specs[c.idx]? = some cr) (hcc : compile_criterion cr = .ok cc) :
    crit_tick s = { s with crit := some ⟨c.pid, c.specs, c.temp ++ [cc], c.idx + 1⟩ } := by
  simp [crit_tick, h, hidx, hget, hcc]

theorem crit_tick_fail {s : Inq} {c : CritOp} {cr : RawCriterion} {msg : String}
    (h : s.crit = some c) (hidx : ¬ c.specs.length ≤ c.idx)
    (hget : c.specs[c.idx]? = some cr) (hcc : compile_criterion cr = .error msg) :
    crit_tick s = { s with
      crit := none,
      settled := s.settled ++ [(c.pid, Outcome.rejectedValidate msg)] } := by
  simp [crit_tick, h, hidx, hget, hcc]

theorem crit_tick_trustworthy (s : Inq) :
    (crit_tick s).trustworthy_list = s.trustworthy_list := by
  rcases h : s.crit with _ | c
  · rw [crit_tick_idle h]
  · by_cases hidx : c.specs.length ≤ c.idx
    · rw [crit_tick_publish h hidx]
    · rcases hget : c.specs[c.idx]? with _ | cr
      · have : c.idx < c.specs.length := Nat.lt_of_not_le hidx
        rw [List.getElem?_eq_getElem this] at hget
        exact absurd hget (by simp)
      · rcases hcc : compile_criterion cr with msg | cc
        · rw [crit_tick_fail h hidx hget hcc]
        · rw [crit_tick_step h hidx hget hcc]

end Inquisitor

namespace Inquisitor

/-! ## Claim C5 (corrected) -/

set_option maxRecDepth 10000 in
/-- C5 counterexample: a classification interleaved with a pending
`set_criteria` call re-populates the cache before the new rules are
published.  From a fresh engine, `"k"` is classified clean under no
rules and cached; `set_criteria([glob "*"])` (Promise 1) clears the
cache and starts validating; a report classification started and run
during validation caches `"k"` again under the still-empty live rule
set; the `set_criteria` call then completes successfully — and
`contains("k")` is true although `"k"` was cached before the call,
and although `"k"` matches the newly published rule `*`. -/
theorem c5_stale_cache_cex :
    (setHas (proc_tick (do_process ProcessMode.LAZY [("k", some "x")]
        init)).trustworthy_list "k" = true) ∧
    ((1, Outcome.resolvedVoid) ∈
      (crit_tick (crit_tick (proc_tick (do_process ProcessMode.REPORT [("k", some "x")]
        (set_criteria_core
          (proc_tick (do_process ProcessMode.LAZY [("k", some "x")] init))
          [.obj (.vstr "glob") (.vstr "*") .vundef]))))).settled) ∧
    (setHas (crit_tick (crit_tick (proc_tick (do_process ProcessMode.REPORT
        [("k", some "x")]
        (set_criteria_core
          (proc_tick (do_process ProcessMode.LAZY [("k", some "x")] init))
          [.obj (.vstr "glob") (.vstr "*") .vundef]))))).trustworthy_list "k" = true) ∧
    (crit_tick (crit_tick (proc_tick (do_process ProcessMode.REPORT [("k", some "x")]
        (set_criteria_core
          (proc_tick (do_process ProcessMode.LAZY [("k", some "x")] init))
          [.obj (.vstr "glob") (.vstr "*") .vundef]))))).eligibility_criteria ≠ [] := by
  decide

/-- C5 as amended: the cache is cleared synchronously at the start of
every `set_criteria` call (when the live rule set is reset), and stays
empty through validation and past a successful publication as long as
no classification is interleaved — so with no interleaved
classification, `contains(k)` is false after the call for every
previously cached key `k`.  (Keys cached by classifications
interleaved during validation, vetted under the empty live rule set,
survive the publication of the new rules — see the counterexample.) -/
theorem c5_cache_cleared_on_set_criteria (s : Inq) (specs : List RawCriterion)
    (n : Nat) (k : String) :
    setHas (crit_tick^[n] (set_criteria_core s specs)).trustworthy_list k = false := by
  have hbase : (set_criteria_core s specs).trustworthy_list = [] := by
    rcases h : s.crit with _ | c <;>
      rcases hP : s.proc with _ | p <;>
        simp [set_criteria_core, process_abort_core, h, hP]
  have : ∀ m (t : Inq), (crit_tick^[m] t).trustworthy_list = t.trustworthy_list := by
    intro m
    induction m with
    | zero => intro t; rfl
    | succ m ih =>
      intro t
      rw [Function.iterate_succ_apply, ih, crit_tick_trustworthy]
  rw [setHas, this n, hbase]
  simp

end Inquisitor

namespace Inquisitor

/-! ## Claim C9 -/

/-- C9: `decommission()` rejects any in-flight classification Promise
with `ProcessAbortError('Object is being decommissioned')` and any
in-flight criteria-compilation Promise with
`SetCriteriaCancelledError('Object is being decommissioned')`, and
afterwards every public entry point — `set_criteria`,
`inspect_to_report`, `inspect_to_signals`, `process_abort` and the
`criteria` getter — fails fast with `DecommissionedError` instead of
performing any work. -/
theorem c9_decommission_fail_fast (s : Inq) :
    (∀ p, s.proc = some p →
      (p.pid, Outcome.rejectedAbort "Object is being decommissioned") ∈
        (decommission s).settled) ∧
    (∀ c, s.crit = some c →
      (c.pid, Outcome.rejectedCancelled "Object is being decommissioned") ∈
        (decommission s).settled) ∧
    (decommission s).decommissioned = true ∧
    (∀ specs, set_criteria (decommission s) specs = .error ⟨⟩) ∧
    (∀ items, inspect_to_report (decommission s) items = .error ⟨⟩) ∧
    (∀ items, inspect_to_signals (decommission s) items = .error ⟨⟩) ∧
    (∀ msg, process_abort (decommission s) msg = .error ⟨⟩) ∧
    criteria_get (decommission s) = .error ⟨⟩ := by
  have hdec : (decommission s).decommissioned = true := by
    rcases hP : s.proc with _ | p <;> rcases hC : s.crit with _ | c <;>
      simp [decommission, process_abort_core, hP, hC]
  refine ⟨?_, ?_, hdec, ?_, ?_, ?_, ?_, ?_⟩
  · intro p hp
    rcases hC : s.crit with _ | c <;>
      simp [decommission, process_abort_core, hp, hC]
  · intro c hc
    rcases hP : s.proc with _ | p <;>
      simp [decommission, process_abort_core, hc, hP]
  · intro specs
    simp [set_criteria, hdec]
  · intro items
    simp [inspect_to_report, hdec]
  · intro items
    simp [inspect_to_signals, hdec]
  · intro msg
    simp [process_abort, hdec]
  · simp [criteria_get, hdec]

/-- C9 witness: an engine with a pending `set_criteria` call
(Promise 0) and a running streaming classification (Promise 1), torn
down: both Promises reject with the decommission messages, and each
public entry point throws `DecommissionedError` afterwards. -/
theorem c9_decommission_fail_fast_witness :
    ((1, Outcome.rejectedAbort "Object is being decommissioned") ∈
      (decommission (do_process ProcessMode.LAZY [("a", some "x")]
        (set_criteria_core init [.obj (.vstr "glob") (.vstr "*") .vundef]))).settled) ∧
    ((0, Outcome.rejectedCancelled "Object is being decommissioned") ∈
      (decommission (do_process ProcessMode.LAZY [("a", some "x")]
        (set_criteria_core init [.obj (.vstr "glob") (.vstr "*") .vundef]))).settled) ∧
    (set_criteria (decommission (do_process ProcessMode.LAZY [("a", some "x")]
        (set_criteria_core init [.obj (.vstr "glob") (.vstr "*") .vundef]))) [] =
      .error ⟨⟩) ∧
    (inspect_to_report (decommission (do_process ProcessMode.LAZY [("a", some "x")]
        (set_criteria_core init [.obj (.vstr "glob") (.vstr "*") .vundef]))) [] =
      .error ⟨⟩) ∧
    (inspect_to_signals (decommission (do_process ProcessMode.LAZY [("a", some "x")]
        (set_criteria_core init [.obj (.vstr "glob") (.vstr "*") .vundef]))) [] =
      .error ⟨⟩) ∧
    (process_abort (decommission (do_process ProcessMode.LAZY [("a", some "x")]
        (set_criteria_core init [.obj (.vstr "glob") (.vstr "*") .vundef]))) "m" =
      .error ⟨⟩) ∧
    criteria_get (decommission (do_process ProcessMode.LAZY [("a", some "x")]
        (set_criteria_core init [.obj (.vstr "glob") (.vstr "*") .vundef]))) =
      .error ⟨⟩ := by
  refine ⟨?_, ?_, ?_, ?_, ?_, ?_, ?_⟩
  · exact (c9_decommission_fail_fast _).1 ⟨1, ProcessMode.LAZY, [("a", some "x")]⟩
      (by decide)
  · exact (c9_decommission_fail_fast _).2.1
      ⟨0, [.obj (.vstr "glob") (.vstr "*") .vundef], [], 0⟩ (by decide)
  · exact (c9_decommission_fail_fast _).2.2.2.1 []
  · exact (c9_decommission_fail_fast _).2.2.2.2.1 []
  · exact (c9_decommission_fail_fast _).2.2.2.2.2.1 []
  · exact (c9_decommission_fail_fast _).2.2.2.2.2.2.1 "m"
  · exact (c9_decommission_fail_fast _).2.2.2.2.2.2.2

end Inquisitor

namespace Inquisitor

/-! ## Claim C1: supporting lemmas -/

theorem compile_list_snoc_ok {xs : List RawCriterion} {l : List CompiledCriterion}
    {cr : RawCriterion} {cc : CompiledCriterion}
    (hxs : compile_list xs = .ok l) (hcc : compile_criterion cr = .ok cc) :
    compile_list (xs ++ [cr]) = .ok (l ++ [cc]) := by
  induction xs generalizing l with
  | nil =>
    simp [compile_list] at hxs
    subst hxs
    simp [compile_list, hcc]
  | cons x xs ih =>
    rw [compile_list] at hxs
    rcases hx : compile_criterion x with e | xc <;> rw [hx] at hxs
    · exact absurd hxs (by simp)
    · rcases hrest : compile_list xs with e | lrest <;> rw [hrest] at hxs
      · exact absurd hxs (by simp)
      · have hl : l = xc :: lrest := by
          have := hxs
          simp at this
          exact this.symm
        subst hl
        rw [List.cons_append, compile_list, hx, ih hrest]
        simp

/-- What one check tick can do to the fields a pending `set_criteria`
call cares about: criteria, the criteria operation and the id counter
are untouched; at most one settlement is appended, carrying the id of
the running check operation; a surviving check operation keeps its
id. -/
theorem proc_tick_shape (s : Inq) :
    (proc_tick s).eligibility_criteria = s.eligibility_criteria ∧
    (proc_tick s).crit = s.crit ∧
    (proc_tick s).nextId = s.nextId ∧
    ((proc_tick s).settled = s.settled ∨
      ∃ p out, s.proc = some p ∧ (proc_tick s).settled = s.settled ++ [(p.pid, out)]) ∧
    (∀ q, (proc_tick s).proc = some q → ∃ p, s.proc = some p ∧ q.pid = p.pid) := by
  rcases h : s.proc with _ | p
  · simp [proc_tick, h]
  · by_cases hrest :
      (p.items.drop (if p.mode = ProcessMode.REPORT then BATCH_SIZE else 1)).isEmpty
    · refine ⟨by simp [proc_tick, h, hrest], by simp [proc_tick, h, hrest],
        by simp [proc_tick, h, hrest],
        Or.inr ⟨p,
          (if p.mode = ProcessMode.REPORT then
            Outcome.resolvedReport (process_batch p.mode s.eligibility_criteria
              ⟨s.trustworthy_list, s.emitted, s.report.getD []⟩
              (p.items.take
                (if p.mode = ProcessMode.REPORT then BATCH_SIZE else 1))).report
          else Outcome.resolvedVoid), rfl, by simp [proc_tick, h, hrest]⟩,
        by simp [proc_tick, h, hrest]⟩
    · refine ⟨?_, ?_, ?_, Or.inl ?_, ?_⟩ <;>
        simp [proc_tick, h, hrest]

/-- What `do_process` does to those fields: criteria and the criteria
operation are untouched, the id counter advances by one, at most one
settlement is appended carrying the id of the previously running check
operation, and the new check operation takes the old id counter as its
Promise id. -/
theorem do_process_shape (mode : ProcessMode) (items : List RecentItemTuple) (s : Inq) :
    (do_process mode items s).eligibility_criteria = s.eligibility_criteria ∧
    (do_process mode items s).crit = s.crit ∧
    (do_process mode items s).nextId = s.nextId + 1 ∧
    ((do_process mode items s).settled = s.settled ∨
      ∃ p out, s.proc = some p ∧
        (do_process mode items s).settled = s.settled ++ [(p.pid, out)]) ∧
    (do_process mode items s).proc = some ⟨s.nextId, mode, items⟩ := by
  rcases h : s.proc with _ | p
  · refine ⟨?_, ?_, ?_, Or.inl ?_, ?_⟩ <;>
      simp [do_process, process_abort_core, h]
  · refine ⟨by simp [do_process, process_abort_core, h],
      by simp [do_process, process_abort_core, h],
      by simp [do_process, process_abort_core, h],
      Or.inr ⟨p, Outcome.rejectedAbort "New process will be initiated", rfl,
        by simp [do_process, process_abort_core, h]⟩,
      by simp [do_process, process_abort_core, h]⟩

/-- Likewise for an explicit `process_abort`. -/
theorem process_abort_shape (msg : String) (s : Inq) :
    ((process_abort_core msg s).2).eligibility_criteria = s.eligibility_criteria ∧
    ((process_abort_core msg s).2).crit = s.crit ∧
    ((process_abort_core msg s).2).nextId = s.nextId ∧
    (((process_abort_core msg s).2).settled = s.settled ∨
      ∃ p out, s.proc = some p ∧
        ((process_abort_core msg s).2).settled = s.settled ++ [(p.pid, out)]) ∧
    (∀ q, ((process_abort_core msg s).2).proc = some q →
      ∃ p, s.proc = some p ∧ q.pid = p.pid) := by
  rcases h : s.proc with _ | p
  · refine ⟨?_, ?_, ?_, Or.inl ?_, ?_⟩ <;> simp [process_abort_core, h]
  · refine ⟨by simp [process_abort_core, h], by simp [process_abort_core, h],
      by simp [process_abort_core, h],
      Or.inr ⟨p, Outcome.rejectedAbort msg, rfl, by simp [process_abort_core, h]⟩,
      by simp [process_abort_core, h]⟩

end Inquisitor

namespace Inquisitor

/-- Any step that leaves the criteria, the criteria operation and the
id counter's monotonicity intact, settles at most the running check
operation's Promise, and installs check operations only with the old
id or a fresh one, preserves the `set_criteria` invariant. -/
theorem c1_inv_preserved (pid0 : Nat) (specs : List RawCriterion) {s t : Inq}
    (h : C1Inv pid0 specs s)
    (hrules : t.eligibility_criteria = s.eligibility_criteria)
    (hcrit : t.crit = s.crit)
    (hnext : s.nextId ≤ t.nextId)
    (hsettle : t.settled = s.settled ∨
      ∃ p out, s.proc = some p ∧ t.settled = s.settled ++ [(p.pid, out)])
    (hproc : ∀ q, t.proc = some q →
      (∃ p, s.proc = some p ∧ q.pid = p.pid) ∨ q.pid = s.nextId) :
    C1Inv pid0 specs t := by
  obtain ⟨h1, h2, h3⟩ := h
  have h1' : pid0 < t.nextId := lt_of_lt_of_le h1 hnext
  have h2' : ∀ q, t.proc = some q → q.pid ≠ pid0 := by
    intro q hq
    rcases hproc q hq with ⟨p, hp, he⟩ | he
    · rw [he]; exact h2 p hp
    · rw [he]
      exact fun hcon => absurd hcon.symm (Nat.ne_of_lt h1)
  have hmem : ∀ o, (pid0, o) ∈ t.settled ↔ (pid0, o) ∈ s.settled := by
    intro o
    rcases hsettle with he | ⟨p, out, hp, he⟩
    · rw [he]
    · rw [he]
      simp only [List.mem_append, List.mem_singleton]
      constructor
      · rintro (hin | heq)
        · exact hin
        · exfalso
          have hpe : pid0 = p.pid := congrArg Prod.fst heq
          exact h2 p hp hpe.symm
      · exact fun hin => Or.inl hin
  refine ⟨h1', h2', ?_⟩
  rcases h3 with ⟨c, hc, hpid, hspecs, hidx, hcomp, hrul, hnos⟩ | ⟨hc, hl, hin, huniq⟩ |
    ⟨hc, hrul, msg, hin, huniq⟩
  · exact Or.inl ⟨c, by rw [hcrit]; exact hc, hpid, hspecs, hidx, hcomp,
      by rw [hrules]; exact hrul, fun o ho => hnos o ((hmem o).1 ho)⟩
  · exact Or.inr (Or.inl ⟨by rw [hcrit]; exact hc,
      (by rcases hl with ⟨l, hcl, hel⟩; exact ⟨l, hcl, by rw [hrules]; exact hel⟩),
      (hmem _).2 hin, fun o ho => huniq o ((hmem o).1 ho)⟩)
  · exact Or.inr (Or.inr ⟨by rw [hcrit]; exact hc, by rw [hrules]; exact hrul,
      msg, (hmem _).2 hin, fun o ho => huniq o ((hmem o).1 ho)⟩)

end Inquisitor

namespace Inquisitor

/-- One scheduled event preserves the `set_criteria` invariant. -/
theorem c1_inv_step (pid0 : Nat) (specs : List RawCriterion) (s : Inq) (e : Event)
    (h : C1Inv pid0 specs s) : C1Inv pid0 specs (stepEv s e) := by
  cases e with
  | procTick =>
    obtain ⟨ha, hb, hc, hd, he⟩ := proc_tick_shape s
    exact c1_inv_preserved pid0 specs h ha hb hc.ge hd
      (fun q hq => Or.inl (he q hq))
  | callAbort msg =>
    obtain ⟨ha, hb, hc, hd, he⟩ := process_abort_shape msg s
    exact c1_inv_preserved pid0 specs h ha hb hc.ge hd
      (fun q hq => Or.inl (he q hq))
  | callInspect mode items =>
    obtain ⟨ha, hb, hc, hd, he⟩ := do_process_shape mode items s
    have hgoal : C1Inv pid0 specs (do_process mode items s) := by
      refine c1_inv_preserved pid0 specs h ha hb (by omega) hd ?_
      intro q hq
      right
      rw [he] at hq
      have hqe : (⟨s.nextId, mode, items⟩ : ProcOp) = q := by
        simpa using hq
      rw [← hqe]
    exact hgoal
  | critTick =>
    obtain ⟨h1, h2, h3⟩ := h
    rcases h3 with ⟨c, hcrit, hpid, hspecs, hidxle, hcomp, hrules, hnos⟩ |
      ⟨hc, hl, hin, huniq⟩ | ⟨hc, hrul, msg, hin, huniq⟩
    · by_cases hidx : c.specs.length ≤ c.idx
      · -- all criteria validated: this tick publishes and resolves
        rw [show stepEv s Event.critTick = crit_tick s from rfl,
          crit_tick_publish hcrit hidx]
        have htake : specs.take c.idx = specs := by
          apply List.take_of_length_le
          rw [← hspecs]
          exact hidx
        rw [htake] at hcomp
        refine ⟨h1, h2, Or.inr (Or.inl ⟨rfl, ⟨c.temp, hcomp, rfl⟩, ?_, ?_⟩)⟩
        · apply List.mem_append_right
          simp [hpid]
        · intro o ho
          rcases List.mem_append.mp ho with hin2 | hin2
          · exact absurd hin2 (hnos o)
          · simp at hin2
            exact hin2.2
      · have hlt : c.idx < c.specs.length := Nat.lt_of_not_le hidx
        rcases hget : c.specs[c.idx]? with _ | cr
        · rw [List.getElem?_eq_getElem hlt] at hget
          exact absurd hget (by simp)
        · rcases hcc : compile_criterion cr with msg | cc
          · -- a validation error: this tick rejects
            rw [show stepEv s Event.critTick = crit_tick s from rfl,
              crit_tick_fail hcrit hidx hget hcc]
            refine ⟨h1, h2, Or.inr (Or.inr ⟨rfl, hrules, msg, ?_, ?_⟩)⟩
            · apply List.mem_append_right
              simp [hpid]
            · intro o ho
              rcases List.mem_append.mp ho with hin2 | hin2
              · exact absurd hin2 (hnos o)
              · simp at hin2
                exact hin2.2
          · -- one more criterion compiled into the temporary list
            rw [show stepEv s Event.critTick = crit_tick s from rfl,
              crit_tick_step hcrit hidx hget hcc]
            refine ⟨h1, h2, Or.inl ⟨⟨c.pid, c.specs, c.temp ++ [cc], c.idx + 1⟩,
              rfl, hpid, hspecs, ?_, ?_, hrules, hnos⟩⟩
            · rw [← hspecs]
              show c.idx + 1 ≤ c.specs.length
              omega
            · have hgetspecs : specs[c.idx]? = some cr := by
                rw [← hspecs]
                exact hget
              have htakes : specs.take (c.idx + 1) = specs.take c.idx ++ [cr] := by
                rw [List.take_succ, hgetspecs]
                rfl
              rw [htakes]
              exact compile_list_snoc_ok hcomp hcc
    · rw [show stepEv s Event.critTick = crit_tick s from rfl, crit_tick_idle hc]
      exact ⟨h1, h2, Or.inr (Or.inl ⟨hc, hl, hin, huniq⟩)⟩
    · rw [show stepEv s Event.critTick = crit_tick s from rfl, crit_tick_idle hc]
      exact ⟨h1, h2, Or.inr (Or.inr ⟨hc, hrul, msg, hin, huniq⟩)⟩

end Inquisitor

namespace Inquisitor

theorem c1_inv_run (pid0 : Nat) (specs : List RawCriterion) (es : List Event) :
    ∀ (s : Inq), C1Inv pid0 specs s → C1Inv pid0 specs (runEvents s es) := by
  induction es with
  | nil => intro s h; exact h
  | cons e es ih =>
    intro s h
    exact ih (stepEv s e) (c1_inv_step pid0 specs s e h)

/-- The synchronous start of a `set_criteria` call establishes the
invariant for the fresh Promise id. -/
theorem c1_inv_init (s : Inq) (specs : List RawCriterion) (hwf : WFpids s) :
    C1Inv s.nextId specs (set_criteria_core s specs) := by
  obtain ⟨hw1, hw2, hw3⟩ := hwf
  have hnext : (set_criteria_core s specs).nextId = s.nextId + 1 := by
    rcases hC : s.crit with _ | c <;> rcases hP : s.proc with _ | p <;>
      simp [set_criteria_core, process_abort_core, hC, hP]
  have hproc : (set_criteria_core s specs).proc = none := by
    rcases hC : s.crit with _ | c <;> rcases hP : s.proc with _ | p <;>
      simp [set_criteria_core, process_abort_core, hC, hP]
  have hcrit : (set_criteria_core s specs).crit = some ⟨s.nextId, specs, [], 0⟩ := by
    rcases hC : s.crit with _ | c <;> rcases hP : s.proc with _ | p <;>
      simp [set_criteria_core, process_abort_core, hC, hP]
  have hrules : (set_criteria_core s specs).eligibility_criteria = [] := by
    rcases hC : s.crit with _ | c <;> rcases hP : s.proc with _ | p <;>
      simp [set_criteria_core, process_abort_core, hC, hP]
  have hbound : ∀ pr ∈ (set_criteria_core s specs).settled, pr.1 < s.nextId := by
    intro pr hpr
    rcases hC : s.crit with _ | c <;> rcases hP : s.proc with _ | p <;>
      simp [set_criteria_core, process_abort_core, hC, hP] at hpr
    · exact hw1 pr hpr
    · rcases hpr with hpr | hpr
      · exact hw1 pr hpr
      · rw [hpr]
        exact hw3 p hP
    · rcases hpr with hpr | hpr
      · exact hw1 pr hpr
      · rw [hpr]
        exact hw2 c hC
    · rcases hpr with hpr | hpr | hpr
      · exact hw1 pr hpr
      · rw [hpr]
        exact hw2 c hC
      · rw [hpr]
        exact hw3 p hP
  refine ⟨by omega, ?_, Or.inl ⟨⟨s.nextId, specs, [], 0⟩, hcrit, rfl, rfl,
    Nat.zero_le _, by simp [compile_list], hrules, ?_⟩⟩
  · intro p hp
    rw [hproc] at hp
    cases hp
  · intro o ho
    have := hbound (s.nextId, o) ho
    simp at this

end Inquisitor

namespace Inquisitor

/-- C1: from the synchronous start of any `set_criteria(specs)` call
(Promise id `pid0 = s.nextId`) and through any interleaving of
validation ticks, check ticks, new classification calls and aborts:
the live rule set is only ever the empty sequence or the complete
compilation of `specs` (never a proper prefix); while the call's
validation is still in progress it is empty; if the call resolved, the
full compiled list was published; and if the call rejected with a
validation error, it is still empty. -/
theorem c1_atomic_rule_swap (s : Inq) (specs : List RawCriterion) (es : List Event)
    (hwf : WFpids s) :
    ((runEvents (set_criteria_core s specs) es).eligibility_criteria = [] ∨
      ∃ l, compile_list specs = .ok l ∧
        (runEvents (set_criteria_core s specs) es).eligibility_criteria = l) ∧
    (∀ c, (runEvents (set_criteria_core s specs) es).crit = some c → c.pid = s.nextId →
      (runEvents (set_criteria_core s specs) es).eligibility_criteria = []) ∧
    ((s.nextId, Outcome.resolvedVoid) ∈
        (runEvents (set_criteria_core s specs) es).settled →
      ∃ l, compile_list specs = .ok l ∧
        (runEvents (set_criteria_core s specs) es).eligibility_criteria = l) ∧
    (∀ msg, (s.nextId, Outcome.rejectedValidate msg) ∈
        (runEvents (set_criteria_core s specs) es).settled →
      (runEvents (set_criteria_core s specs) es).eligibility_criteria = []) := by
  have hinv := c1_inv_run s.nextId specs es _ (c1_inv_init s specs hwf)
  obtain ⟨h1, h2, h3⟩ := hinv
  rcases h3 with ⟨c, hc, hpid, hspecs, hidx, hcomp, hrul, hnos⟩ |
    ⟨hc, ⟨l, hcl, hel⟩, hin, huniq⟩ | ⟨hc, hrul, msg0, hin0, huniq⟩
  · exact ⟨Or.inl hrul, fun c' hc' hp => hrul,
      fun hmem => absurd hmem (hnos _), fun msg hmem => hrul⟩
  · refine ⟨Or.inr ⟨l, hcl, hel⟩, ?_, fun _ => ⟨l, hcl, hel⟩, ?_⟩
    · intro c' hc' hp
      rw [hc] at hc'
      cases hc'
    · intro msg hmem
      exact absurd (huniq _ hmem) (by simp)
  · refine ⟨Or.inl hrul, ?_, ?_, fun msg hmem => hrul⟩
    · intro c' hc' hp
      rw [hc] at hc'
      cases hc'
    · intro hmem
      exact absurd (huniq _ hmem) (by simp)

/-- C1 witness: on a fresh engine, `set_criteria([glob "*.tmp"])`
followed by its two validation ticks resolves, and the live rule set
is then exactly the full compilation of the one-element spec list. -/
theorem c1_atomic_rule_swap_witness :
    ∃ l, compile_list [RawCriterion.obj (.vstr "glob") (.vstr "*.tmp") .vundef] =
        .ok l ∧
      (runEvents (set_criteria_core init
          [RawCriterion.obj (.vstr "glob") (.vstr "*.tmp") .vundef])
        [Event.critTick, Event.critTick]).eligibility_criteria = l :=
  (c1_atomic_rule_swap init [RawCriterion.obj (.vstr "glob") (.vstr "*.tmp") .vundef]
    [Event.critTick, Event.critTick]
    ⟨fun e he => absurd he (by simp [init]),
     fun c hc => by simp [init] at hc,
     fun p hp => by simp [init] at hp⟩).2.2.1 (by decide)

end Inquisitor
